import Mathlib

/-!
Shallow embedding of `src/mysql_import.cpp` from metricq-import: the
`stats_query` aggregate probe and the chunked, monotonicity-filtering
`import` loop, together with theorems settling the specification claims.

Modelling conventions.
* `uint64_t` timestamps and counters are modelled as `Nat`.  All the
  quantities involved (unix-millisecond timestamps, row counts, chunk
  widths) stay far below `2^64` in every theorem below, so wrap-around
  never occurs and is not modelled.
* The MySQL table holding the metric is modelled as a `List Row`; the
  bounded range query (`SELECT ... WHERE timestamp >= ? AND timestamp < ?
  ORDER BY timestamp ASC LIMIT ?`) filters, sorts ascending (stably) and
  truncates at the row limit.
* `double` values carried through from the source are never computed on by
  any claim; they are carried opaquely as `Int`.
-/

namespace MysqlImport

/-- A source row as returned by the range query: raw timestamp in unix
milliseconds and an opaque value. -/
structure Row where
  timestamp : Nat
  value : Int
deriving DecidableEq

/-- The aggregate statistics, struct `stats` in the source. -/
structure Stats where
  min_timestamp : Nat
  max_timestamp : Nat
  count : Nat
deriving DecidableEq

/-- The aggregate `SELECT COUNT(timestamp), MIN(timestamp), MAX(timestamp)`
on the metric's table.  SQL semantics: the aggregate always returns exactly
one row, so `assert(result->next())` in `stats_query` passes even for an
empty table; there `COUNT` is `0` and `MIN`/`MAX` are NULL, which the
connector's `getUInt64` reads as `0`. -/
def statsOf (src : List Row) : Stats :=
  match src with
  | [] => ⟨0, 0, 0⟩
  | r :: rs =>
      ⟨(rs.map Row.timestamp).foldl min r.timestamp,
       (rs.map Row.timestamp).foldl max r.timestamp,
       src.length⟩

/-- `stats_query` (source lines 88-100): runs the aggregate query and reads
the single aggregate row.  `queryOk` models whether the underlying query
itself succeeds; a failed query raises (modelled as `Except.error`), a
successful one always has a row to read, whatever the table contents. -/
def statsQuery (queryOk : Bool) (src : List Row) : Except String Stats :=
  if queryOk then Except.ok (statsOf src) else Except.error "SourceQueryError"

/-- Conversion of a raw source timestamp (unix milliseconds) into the
destination `hta::TimePoint`, whose clock counts nanoseconds since the unix
epoch in a 64-bit signed representation:
`hta::TimePoint hta_time{hta::duration_cast(std::chrono::milliseconds(ts))}`. -/
def htaTimeOfMillis (ms : Nat) : Int := (ms : Int) * 1000000

/-- The value of a default-constructed `hta::TimePoint previous_time;`
(source line 112): `std::chrono::time_point`'s default constructor
value-initializes the duration, i.e. the clock's epoch, tick count `0`. -/
def htaEpoch : Int := 0

/-- The minimum value of the destination time representation (a 64-bit
signed nanosecond tick count), i.e. `hta::TimePoint::min()`. -/
def htaTimePointMin : Int := -(2 ^ 63)

/-- A sample handed to `out_metric.insert` in destination time
representation. -/
structure Sample where
  time : Int
  value : Int
deriving DecidableEq

/-- The mutable state of the import loop: `current_timestamp`, the `row`
counter, `previous_time` (the monotonicity cursor), plus the observable
history of the run — the samples inserted into the destination metric in
insertion order, the number of rows dropped by the monotonicity filter
(each produces a "Skipping non-monotonous timestamp" diagnostic), and the
number of chunk queries issued. -/
structure LoopState where
  current : Nat
  row : Nat
  prev : Int
  inserted : List Sample
  skipped : Nat
  queries : Nat
deriving DecidableEq

/-- The loop state right before the first iteration (source lines 111-139):
`current_timestamp = min_timestamp` (already clamped), `row = 0`,
`previous_time` default-constructed to the epoch, nothing inserted yet. -/
def initState (lo : Nat) : LoopState :=
  ⟨lo, 0, htaEpoch, [], 0, 0⟩

/-- What the run reports on termination (source lines 142-147): the `row`
counter, together with the observable history of the run. -/
structure RunResult where
  row : Nat
  inserted : List Sample
  skipped : Nat
  queries : Nat
deriving DecidableEq

/-- The result reported when the loop terminates in state `st`. -/
def stateResult (st : LoopState) : RunResult :=
  ⟨st.row, st.inserted, st.skipped, st.queries⟩

/-- Processing of one returned row (source lines 162-175): remember its raw
timestamp (reflected in the caller's use of the last processed row), count
it in `row`, convert it, and either drop it (non-monotonic: converted time
`<=` cursor, cursor unchanged) or insert it and advance the cursor. -/
def processRow (st : LoopState) (r : Row) : LoopState :=
  if htaTimeOfMillis r.timestamp ≤ st.prev then
    { st with row := st.row + 1, skipped := st.skipped + 1 }
  else
    { st with row := st.row + 1,
              prev := htaTimeOfMillis r.timestamp,
              inserted := st.inserted ++ [⟨htaTimeOfMillis r.timestamp, r.value⟩] }

/-- The inner `while (res->next())` loop over one chunk's result set. -/
def processRows (st : LoopState) (rows : List Row) : LoopState :=
  rows.foldl processRow st

/-- Stable insertion into a timestamp-ascending list (an earlier element
stays before a later element with an equal timestamp). -/
def insertByTime (r : Row) : List Row → List Row
  | [] => [r]
  | q :: qs => if r.timestamp ≤ q.timestamp then r :: q :: qs else q :: insertByTime r qs

/-- Stable ascending sort by timestamp, modelling `ORDER BY timestamp ASC`. -/
def sortByTime : List Row → List Row
  | [] => []
  | r :: rs => insertByTime r (sortByTime rs)

/-- The bounded range query (source lines 115-117, 151-155):
`SELECT timestamp, value FROM metric WHERE timestamp >= lo AND
timestamp < hi ORDER BY timestamp ASC LIMIT limit`. -/
def queryRange (src : List Row) (lo hi limit : Nat) : List Row :=
  (sortByTime (src.filter (fun r => decide (lo ≤ r.timestamp ∧ r.timestamp < hi)))).take limit

/-- The bounds of the chunk query issued from state `st` (source lines
149-153): lower bound `current_timestamp`, upper bound
`next_timestamp = min(current_timestamp + chunk_timedelta, max_timestamp)`. -/
def queryBounds (delta upper : Nat) (st : LoopState) : Nat × Nat :=
  (st.current, min (st.current + delta) upper)

/-- One iteration of the import loop body below the termination check
(source lines 149-181): issue the chunk query; on an empty result set
advance `current_timestamp` to `next_timestamp`; otherwise process every
returned row, flush, and advance `current_timestamp` to one past the raw
timestamp of the last returned row (`current_dataheap_timestamp + 1`). -/
def step (src : List Row) (maxLimit delta upper : Nat) (st : LoopState) : LoopState :=
  match queryRange src (queryBounds delta upper st).1 (queryBounds delta upper st).2 maxLimit with
  | [] =>
      { st with queries := st.queries + 1, current := (queryBounds delta upper st).2 }
  | r :: rs =>
      { processRows { st with queries := st.queries + 1 } (r :: rs) with
        current := ((r :: rs).getLast (List.cons_ne_nil r rs)).timestamp + 1 }

/-- The `while (true)` import loop (source lines 140-181), with explicit
fuel: `none` means the loop has not terminated within `fuel` iterations.
The termination check `current_timestamp >= max_timestamp` sits at the top
of the body. -/
def importLoop (src : List Row) (maxLimit delta upper : Nat) :
    Nat → LoopState → Option RunResult
  | 0, _ => none
  | fuel + 1, st =>
      if upper ≤ st.current then some (stateResult st)
      else importLoop src maxLimit delta upper fuel (step src maxLimit delta upper st)

/-- Clamping of the requested lower bound (source line 121):
`min_timestamp = std::max(min_timestamp, stats.min_timestamp)`. -/
def lowerBound (reqMin : Nat) (s : Stats) : Nat := max reqMin s.min_timestamp

/-- Clamping of the requested upper bound (source lines 122-129):
`max_timestamp = max_timestamp ? std::min(max_timestamp,
stats.max_timestamp + 1) : stats.max_timestamp + 1`. -/
def upperBound (reqMax : Nat) (s : Stats) : Nat :=
  if reqMax ≠ 0 then min reqMax (s.max_timestamp + 1) else s.max_timestamp + 1

/-- `sampling_interval = static_cast<double>(stats.max_timestamp -
stats.min_timestamp) / stats.count` (source lines 131-132), in exact
rational arithmetic.  A zero `count` makes the divisor zero (`0.0 / 0`, a
NaN whose later conversion to `uint64_t` is undefined), modelled as `none`. -/
def samplingInterval (s : Stats) : Option ℚ :=
  if s.count = 0 then none
  else some (((s.max_timestamp - s.min_timestamp : ℕ) : ℚ) / (s.count : ℚ))

/-- `uint64_t chunk_timedelta = sampling_interval * max_limit / 2` (source
lines 133-134), the truncating double-to-`uint64_t` conversion of the exact
value `((max - min) / count) * maxLimit / 2`, i.e. the natural-number floor
division `(max - min) * maxLimit / (2 * count)`; exact whenever the double
computation is (which it is at every concrete input used below).  The
zero-`count` hazard of `samplingInterval` is mirrored by the `none` guard. -/
def chunkTimedeltaOpt (s : Stats) (maxLimit : Nat) : Option Nat :=
  if s.count = 0 then none
  else some ((s.max_timestamp - s.min_timestamp) * maxLimit / (2 * s.count))

/-- The whole of `import` (source lines 102-182) for a run in which every
source query succeeds: probe the aggregate stats, clamp the requested
bounds, derive the chunk width, and drive the loop from the clamped lower
bound. -/
def importRun (src : List Row) (reqMin reqMax maxLimit fuel : Nat) : Option RunResult :=
  match chunkTimedeltaOpt (statsOf src) maxLimit with
  | none => none
  | some delta =>
      importLoop src maxLimit delta (upperBound reqMax (statsOf src)) fuel
        (initState (lowerBound reqMin (statsOf src)))

/-- The source table of spec Scenario B: rows at timestamps
100, 200, 200, 300 (a duplicated timestamp). -/
def scenarioB : List Row := [⟨100, 1⟩, ⟨200, 2⟩, ⟨200, 3⟩, ⟨300, 4⟩]

/-- A source table holding a single row: all timestamps equal, so the
derived `chunk_timedelta` is `0`. -/
def singleRowSrc : List Row := [⟨100, 7⟩]

/-- The monotonicity invariant of the loop state: the samples inserted so
far have strictly increasing timestamps in insertion order, and all of them
lie at or below the cursor `previous_time`. -/
def SortedInv (st : LoopState) : Prop :=
  List.Chain' (fun a b : Sample => a.time < b.time) st.inserted ∧
  ∀ x ∈ st.inserted, x.time ≤ st.prev

/-- The accounting invariant of the loop state: the `row` counter equals
inserted samples plus monotonicity drops. -/
def CountInv (st : LoopState) : Prop :=
  st.row = st.inserted.length + st.skipped

theorem mem_insertByTime {a r : Row} {l : List Row} (h : a ∈ insertByTime r l) :
    a = r ∨ a ∈ l := by
  induction l with
  | nil =>
      rw [insertByTime] at h
      exact Or.inl (List.mem_singleton.mp h)
  | cons q qs ih =>
      rw [insertByTime] at h
      split at h
      · rcases List.mem_cons.mp h with h | h
        · exact Or.inl h
        · exact Or.inr h
      · rcases List.mem_cons.mp h with h | h
        · exact Or.inr (by rw [h]; exact List.mem_cons_self q qs)
        · rcases ih h with h | h
          · exact Or.inl h
          · exact Or.inr (List.mem_cons_of_mem q h)

theorem mem_sortByTime {a : Row} {l : List Row} (h : a ∈ sortByTime l) : a ∈ l := by
  induction l with
  | nil => rw [sortByTime] at h; exact h
  | cons r rs ih =>
      rw [sortByTime] at h
      rcases mem_insertByTime h with h | h
      · rw [h]; exact List.mem_cons_self r rs
      · exact List.mem_cons_of_mem r (ih h)

/-- Every row the bounded range query returns lies in the queried window
and comes from the source table. -/
theorem mem_queryRange {src : List Row} {lo hi limit : Nat} {a : Row}
    (h : a ∈ queryRange src lo hi limit) :
    a ∈ src ∧ lo ≤ a.timestamp ∧ a.timestamp < hi := by
  have h1 := mem_sortByTime (List.take_subset _ _ h)
  have h2 := List.mem_filter.mp h1
  exact ⟨h2.1, of_decide_eq_true h2.2⟩

theorem processRow_sortedInv {st : LoopState} {r : Row} (h : SortedInv st) :
    SortedInv (processRow st r) := by
  obtain ⟨hchain, hle⟩ := h
  unfold processRow
  split
  · exact ⟨hchain, hle⟩
  · rename_i hgt
    rw [not_le] at hgt
    constructor
    · rw [List.chain'_append]
      refine ⟨hchain, List.chain'_singleton _, ?_⟩
      intro x hx y hy
      rcases List.mem_getLast?_eq_getLast hx with ⟨hne, hxl⟩
      have hxmem : x ∈ st.inserted := by rw [hxl]; exact List.getLast_mem hne
      have hy' : (⟨htaTimeOfMillis r.timestamp, r.value⟩ : Sample) = y := by
        simpa using hy
      rw [← hy']
      exact lt_of_le_of_lt (hle x hxmem) hgt
    · intro x hx
      rcases List.mem_append.mp hx with hx | hx
      · exact le_of_lt (lt_of_le_of_lt (hle x hx) hgt)
      · have : x = ⟨htaTimeOfMillis r.timestamp, r.value⟩ := by simpa using hx
        rw [this]

theorem processRows_sortedInv {rows : List Row} :
    ∀ {st : LoopState}, SortedInv st → SortedInv (processRows st rows) := by
  induction rows with
  | nil => intro st h; exact h
  | cons r rs ih =>
      intro st h
      exact ih (processRow_sortedInv h)

theorem step_sortedInv {src : List Row} {maxLimit delta upper : Nat} {st : LoopState}
    (h : SortedInv st) : SortedInv (step src maxLimit delta upper st) := by
  unfold step
  split
  · exact h
  · exact processRows_sortedInv h

theorem processRow_countInv {st : LoopState} {r : Row} (h : CountInv st) :
    CountInv (processRow st r) := by
  unfold CountInv at h ⊢
  unfold processRow
  split
  · simpa using by omega
  · simp [List.length_append]
    omega

theorem processRows_countInv {rows : List Row} :
    ∀ {st : LoopState}, CountInv st → CountInv (processRows st rows) := by
  induction rows with
  | nil => intro st h; exact h
  | cons r rs ih =>
      intro st h
      exact ih (processRow_countInv h)

theorem step_countInv {src : List Row} {maxLimit delta upper : Nat} {st : LoopState}
    (h : CountInv st) : CountInv (step src maxLimit delta upper st) := by
  unfold step
  split
  · exact h
  · exact processRows_countInv h

/-- Any property of loop states preserved by one loop iteration holds of
the state whose projection the loop reports on termination. -/
theorem importLoop_some_inv {src : List Row} {maxLimit delta upper : Nat}
    (P : LoopState → Prop)
    (hstep : ∀ st, P st → P (step src maxLimit delta upper st)) :
    ∀ (fuel : Nat) (st : LoopState) (res : RunResult),
      P st → importLoop src maxLimit delta upper fuel st = some res →
      ∃ st', P st' ∧ res = stateResult st' := by
  intro fuel
  induction fuel with
  | zero => intro st res _ h; simp [importLoop] at h
  | succ n ih =>
      intro st res hp h
      rw [importLoop] at h
      split at h
      · exact ⟨st, hp, (Option.some.inj h).symm⟩
      · exact ih _ _ (hstep st hp) h

/-- C1: in every run of the import loop the samples inserted into the
destination have strictly increasing timestamps in insertion order; a
returned row is inserted exactly when its converted timestamp is strictly
greater than the monotonicity cursor (the accepting branch records the
sample and advances the cursor), and a rejected row leaves the cursor and
the inserted samples unchanged. -/
theorem accepted_iff_monotone :
    (∀ (st : LoopState) (r : Row), htaTimeOfMillis r.timestamp ≤ st.prev →
        processRow st r = { st with row := st.row + 1, skipped := st.skipped + 1 }) ∧
    (∀ (st : LoopState) (r : Row), st.prev < htaTimeOfMillis r.timestamp →
        processRow st r
          = { st with row := st.row + 1,
                      prev := htaTimeOfMillis r.timestamp,
                      inserted := st.inserted ++ [⟨htaTimeOfMillis r.timestamp, r.value⟩] }) ∧
    (∀ (src : List Row) (reqMin reqMax maxLimit fuel : Nat) (res : RunResult),
        importRun src reqMin reqMax maxLimit fuel = some res →
        List.Chain' (fun a b : Sample => a.time < b.time) res.inserted) := by
  refine ⟨?_, ?_, ?_⟩
  · intro st r h
    rw [processRow, if_pos h]
  · intro st r h
    rw [processRow, if_neg (not_le.mpr h)]
  · intro src reqMin reqMax maxLimit fuel res h
    rw [importRun] at h
    split at h
    · exact Option.noConfusion h
    · obtain ⟨st', hst', hres⟩ :=
        importLoop_some_inv SortedInv (fun st hp => step_sortedInv hp) _ _ _
          ⟨List.chain'_nil, fun x hx => absurd hx (List.not_mem_nil x)⟩ h
      rw [hres]
      exact hst'.1

/-- Witness for C1: a row at raw timestamp 0 against cursor 0 is rejected
without touching the cursor, a row at raw timestamp 2 against cursor 0 is
accepted, and the inserted samples of the Scenario B run are strictly
increasing. -/
theorem accepted_iff_monotone_witness :
    processRow (initState 100) ⟨0, 5⟩ = { initState 100 with row := 1, skipped := 1 } ∧
    processRow (initState 100) ⟨2, 5⟩
      = { initState 100 with row := 1, prev := htaTimeOfMillis 2,
                             inserted := [⟨htaTimeOfMillis 2, 5⟩] } ∧
    List.Chain' (fun a b : Sample => a.time < b.time)
      ((⟨4, [⟨100000000, 1⟩, ⟨200000000, 2⟩, ⟨300000000, 4⟩], 1, 1⟩ : RunResult).inserted) :=
  ⟨accepted_iff_monotone.1 (initState 100) ⟨0, 5⟩ (by decide),
   accepted_iff_monotone.2.1 (initState 100) ⟨2, 5⟩ (by decide),
   accepted_iff_monotone.2.2 scenarioB 0 0 10 5 _ (by decide)⟩

/-- C2: whenever the chunk query from state `st` returns at least one row,
the loop body sets `current_timestamp` to the raw source timestamp of the
last returned row plus one — whether or not that row passed the
monotonicity filter, and not to the nominal window edge — and hence every
source row with a timestamp beyond the last returned row still lies at or
beyond the next chunk's starting timestamp. -/
theorem advance_to_last_returned (src : List Row) (maxLimit delta upper : Nat)
    (st : LoopState) (r : Row) (rs : List Row)
    (h : queryRange src (queryBounds delta upper st).1 (queryBounds delta upper st).2 maxLimit
          = r :: rs) :
    (step src maxLimit delta upper st).current
        = ((r :: rs).getLast (List.cons_ne_nil r rs)).timestamp + 1 ∧
    ∀ q ∈ src, ((r :: rs).getLast (List.cons_ne_nil r rs)).timestamp < q.timestamp →
      (step src maxLimit delta upper st).current ≤ q.timestamp := by
  have hcur : (step src maxLimit delta upper st).current
      = ((r :: rs).getLast (List.cons_ne_nil r rs)).timestamp + 1 := by
    unfold step
    rw [h]
  refine ⟨hcur, ?_⟩
  intro q _ hlt
  rw [hcur]
  omega

/-- Witness for C2 at a concrete input: with the single returned row at
timestamp 100, the loop body advances `current_timestamp` to 101. -/
theorem advance_to_last_returned_witness :
    (step [⟨100, 1⟩] 5 10 101 (initState 100)).current = 101 :=
  (advance_to_last_returned [⟨100, 1⟩] 5 10 101 (initState 100) ⟨100, 1⟩ [] (by decide)).1

/-- C3: the effective import bounds are `lowerBound = max(requestedMin,
stats.minTimestamp)` and `upperBound = requestedMax != 0 ?
min(requestedMax, stats.maxTimestamp + 1) : stats.maxTimestamp + 1`; in
particular a requested range at least as wide as the source's extent clamps
to exactly the source's `[minTimestamp, maxTimestamp + 1)`. -/
theorem bounds_clamping :
    (∀ (reqMin : Nat) (s : Stats), lowerBound reqMin s = max reqMin s.min_timestamp) ∧
    (∀ (reqMax : Nat) (s : Stats),
        upperBound reqMax s
          = if reqMax ≠ 0 then min reqMax (s.max_timestamp + 1) else s.max_timestamp + 1) ∧
    (∀ (reqMin reqMax : Nat) (s : Stats), reqMin ≤ s.min_timestamp →
        (reqMax = 0 ∨ s.max_timestamp + 1 ≤ reqMax) →
        lowerBound reqMin s = s.min_timestamp ∧ upperBound reqMax s = s.max_timestamp + 1) := by
  refine ⟨fun _ _ => rfl, fun _ _ => rfl, ?_⟩
  intro reqMin reqMax s h1 h2
  constructor
  · exact max_eq_right h1
  · rcases h2 with h2 | h2
    · simp [upperBound, h2]
    · have hne : reqMax ≠ 0 := by omega
      rw [upperBound, if_pos hne]
      exact min_eq_right h2

/-- Witness for C3: a request `[50, 1000)` around a source extent
`[100, 200]` clamps to `[100, 201)`. -/
theorem bounds_clamping_witness :
    lowerBound 50 ⟨100, 200, 5⟩ = 100 ∧ upperBound 1000 ⟨100, 200, 5⟩ = 201 :=
  bounds_clamping.2.2 50 1000 ⟨100, 200, 5⟩ (by decide) (Or.inr (by decide))

/-- C4 (code-bug evaluation): with a single-row source the derived
`chunk_timedelta` is `0`, so `next_timestamp` equals `current_timestamp`,
the chunk query window `[current, current)` is empty, and the empty-chunk
branch re-establishes the same `current_timestamp`: the import loop makes
no progress and never terminates, for any number of iterations. -/
theorem single_row_source_loops_forever :
    ∀ fuel : Nat, importRun singleRowSrc 0 0 20000000 fuel = none := by
  have hstep : ∀ st : LoopState, st.current = 100 →
      step singleRowSrc 20000000 0 101 st
        = { st with queries := st.queries + 1, current := 100 } := by
    intro st h
    have hb1 : (queryBounds 0 101 st).1 = 100 := by simp [queryBounds, h]
    have hb2 : (queryBounds 0 101 st).2 = 100 := by simp [queryBounds, h]
    have hq : queryRange singleRowSrc 100 100 20000000 = [] := by decide
    unfold step
    rw [hb1, hb2, hq]
  have hloop : ∀ (fuel : Nat) (st : LoopState), st.current = 100 →
      importLoop singleRowSrc 20000000 0 101 fuel st = none := by
    intro fuel
    induction fuel with
    | zero => intro st h; rfl
    | succ n ih =>
        intro st h
        rw [importLoop, if_neg (by omega), hstep st h]
        exact ih _ rfl
  intro fuel
  unfold importRun
  have hd : chunkTimedeltaOpt (statsOf singleRowSrc) 20000000 = some 0 := by decide
  rw [hd]
  show importLoop singleRowSrc 20000000 0 (upperBound 0 (statsOf singleRowSrc)) fuel
      (initState (lowerBound 0 (statsOf singleRowSrc))) = none
  have hu : upperBound 0 (statsOf singleRowSrc) = 101 := by decide
  have hl : lowerBound 0 (statsOf singleRowSrc) = 100 := by decide
  rw [hu, hl]
  exact hloop fuel _ rfl

/-- C5 counterexample: on Scenario B (timestamps 100, 200, 200, 300)
exactly three samples are accepted, yet the run reports `row = 4`: the
`row` counter is incremented for every returned row before the
monotonicity check, so rejected rows are included in the reported count. -/
theorem reported_count_includes_skipped_cx :
    importRun scenarioB 0 0 10 5
      = some ⟨4, [⟨100000000, 1⟩, ⟨200000000, 2⟩, ⟨300000000, 4⟩], 1, 1⟩ ∧
    (4 : Nat) ≠ ([⟨100000000, 1⟩, ⟨200000000, 2⟩, ⟨300000000, 4⟩] : List Sample).length :=
  ⟨by decide, by decide⟩

/-- C5 amended: the count a completed run reports equals the total number
of rows returned by its chunk queries, i.e. the inserted samples plus the
rows dropped by the monotonicity filter. -/
theorem reported_count_eq_returned (src : List Row) (reqMin reqMax maxLimit fuel : Nat)
    (res : RunResult) (h : importRun src reqMin reqMax maxLimit fuel = some res) :
    res.row = res.inserted.length + res.skipped := by
  rw [importRun] at h
  split at h
  · exact Option.noConfusion h
  · obtain ⟨st', hst', hres⟩ :=
      importLoop_some_inv CountInv (fun st hp => step_countInv hp) _ _ _ (by rfl) h
    rw [hres]
    exact hst'

/-- Witness for the amended C5: the Scenario B run reports 4 = 3 inserted
samples + 1 dropped row. -/
theorem reported_count_eq_returned_witness :
    (⟨4, [⟨100000000, 1⟩, ⟨200000000, 2⟩, ⟨300000000, 4⟩], 1, 1⟩ : RunResult).row
      = (⟨4, [⟨100000000, 1⟩, ⟨200000000, 2⟩, ⟨300000000, 4⟩], 1, 1⟩ : RunResult).inserted.length
        + (⟨4, [⟨100000000, 1⟩, ⟨200000000, 2⟩, ⟨300000000, 4⟩], 1, 1⟩ : RunResult).skipped :=
  reported_count_eq_returned scenarioB 0 0 10 5 _ (by decide)

/-- C6 (code-bug evaluation): for a zero-row metric the aggregate query
still returns its single row, so `stats_query`'s `assert(result->next())`
passes and it returns `{count := 0, min := 0, max := 0}` instead of
failing; the import then proceeds into the sampling-interval computation
whose divisor is that zero count. -/
theorem stats_query_empty_ok :
    statsQuery true [] = Except.ok ⟨0, 0, 0⟩ ∧
    samplingInterval ⟨0, 0, 0⟩ = none ∧
    chunkTimedeltaOpt ⟨0, 0, 0⟩ 20000000 = none :=
  ⟨rfl, rfl, rfl⟩

/-- C7 counterexample: the monotonicity cursor starts at the epoch (tick
count 0) of the destination time representation — not at the
representation's minimum value — so the very first returned row is not
always a candidate: a first row at raw timestamp 0 ms converts to the epoch
itself, fails the strictly-greater comparison, and is rejected. -/
theorem first_row_zero_rejected_cx :
    (initState 0).prev = 0 ∧
    (initState 0).prev ≠ htaTimePointMin ∧
    (processRow (initState 0) ⟨0, 5⟩).inserted = [] ∧
    (processRow (initState 0) ⟨0, 5⟩).skipped = 1 :=
  ⟨rfl, by decide, rfl, rfl⟩

/-- C7 amended: the monotonicity cursor is initialized by default
construction to the epoch (zero) of the destination time representation, so
every first returned row with raw timestamp at least 1 ms converts strictly
above the cursor and is accepted; only a first row at exactly 0 ms fails
the strictly-greater comparison. -/
theorem cursor_epoch_first_row :
    htaEpoch = 0 ∧ (∀ lo : Nat, (initState lo).prev = htaEpoch) ∧
    ∀ (lo : Nat) (r : Row), 1 ≤ r.timestamp →
      processRow (initState lo) r
        = { initState lo with row := 1, prev := htaTimeOfMillis r.timestamp,
                              inserted := [⟨htaTimeOfMillis r.timestamp, r.value⟩] } := by
  refine ⟨rfl, fun _ => rfl, ?_⟩
  intro lo r h
  have hpos : (0 : Int) < htaTimeOfMillis r.timestamp := by
    unfold htaTimeOfMillis
    have h1 : (1 : Int) ≤ (r.timestamp : Int) := by exact_mod_cast h
    omega
  have hne : ¬ htaTimeOfMillis r.timestamp ≤ (initState lo).prev := not_le.mpr hpos
  rw [processRow, if_neg hne]
  rfl

/-- Witness for the amended C7: a first row at raw timestamp 2 ms is
accepted from the freshly initialized state. -/
theorem cursor_epoch_first_row_witness :
    processRow (initState 7) ⟨2, 9⟩
      = { initState 7 with row := 1, prev := htaTimeOfMillis 2,
                           inserted := [⟨htaTimeOfMillis 2, 9⟩] } :=
  cursor_epoch_first_row.2.2 7 ⟨2, 9⟩ (by decide)

/-- C8: when the clamped bounds are empty — e.g. the requested minimum is
the source's `maxTimestamp + 1`, or more generally the requested range lies
entirely outside the source's extent — the run terminates at the top of the
first iteration: no chunk query is issued, nothing is inserted, and the
reported count is 0. -/
theorem outside_range_zero_work (src : List Row) (reqMin reqMax maxLimit fuel : Nat)
    (hne : src ≠ [])
    (h : upperBound reqMax (statsOf src) ≤ lowerBound reqMin (statsOf src)) :
    importRun src reqMin reqMax maxLimit (fuel + 1) = some ⟨0, [], 0, 0⟩ := by
  have hc : (statsOf src).count ≠ 0 := by
    cases src with
    | nil => exact absurd rfl hne
    | cons r rs => simp [statsOf]
  unfold importRun chunkTimedeltaOpt
  rw [if_neg hc]
  show importLoop src maxLimit
      (((statsOf src).max_timestamp - (statsOf src).min_timestamp) * maxLimit
        / (2 * (statsOf src).count))
      (upperBound reqMax (statsOf src)) (fuel + 1)
      (initState (lowerBound reqMin (statsOf src))) = some ⟨0, [], 0, 0⟩
  have h' : upperBound reqMax (statsOf src)
      ≤ (initState (lowerBound reqMin (statsOf src))).current := h
  rw [importLoop, if_pos h']
  rfl

/-- Witness for C8: requesting a minimum of 201 when the source extent is
`[100, 200]` performs zero work. -/
theorem outside_range_zero_work_witness :
    importRun [⟨100, 1⟩, ⟨200, 2⟩] 201 0 10 (0 + 1) = some ⟨0, [], 0, 0⟩ :=
  outside_range_zero_work [⟨100, 1⟩, ⟨200, 2⟩] 201 0 10 0 (by decide) (by decide)

/-- C9 counterexample: in the run on the single-row source the loop guard
is passed (the clamped bounds are non-empty), the derived `chunk_timedelta`
is 0, and the chunk query issued from the initial state has equal lower and
upper bounds — so the claim that every issued chunk query has strictly
smaller lower bound fails. -/
theorem degenerate_query_bounds_cx :
    chunkTimedeltaOpt (statsOf singleRowSrc) 20000000 = some 0 ∧
    lowerBound 0 (statsOf singleRowSrc) < upperBound 0 (statsOf singleRowSrc) ∧
    (queryBounds 0 (upperBound 0 (statsOf singleRowSrc))
        (initState (lowerBound 0 (statsOf singleRowSrc)))).1
      = (queryBounds 0 (upperBound 0 (statsOf singleRowSrc))
          (initState (lowerBound 0 (statsOf singleRowSrc)))).2 :=
  ⟨by decide, by decide, by decide⟩

/-- C9 amended: from any loop state that passes the loop guard, the chunk
query's bounds satisfy `lower <= upper <= upperBound` — strictly
`lower < upper` whenever `chunk_timedelta >= 1` — and after either branch
of the loop body updates `current_timestamp` it is still at most
`upperBound`. -/
theorem loop_bounds_invariant (src : List Row) (maxLimit delta upper : Nat)
    (st : LoopState) (h : st.current < upper) :
    (step src maxLimit delta upper st).current ≤ upper ∧
    (queryBounds delta upper st).1 ≤ (queryBounds delta upper st).2 ∧
    (queryBounds delta upper st).2 ≤ upper ∧
    (1 ≤ delta → (queryBounds delta upper st).1 < (queryBounds delta upper st).2) := by
  refine ⟨?_, ?_, ?_, ?_⟩
  · unfold step
    split
    · show (queryBounds delta upper st).2 ≤ upper
      simp only [queryBounds]
      omega
    · rename_i r rs heq
      have hmem : ((r :: rs).getLast (List.cons_ne_nil r rs))
          ∈ queryRange src (queryBounds delta upper st).1 (queryBounds delta upper st).2
              maxLimit := by
        rw [heq]
        exact List.getLast_mem _
      have h2 := (mem_queryRange hmem).2.2
      show ((r :: rs).getLast (List.cons_ne_nil r rs)).timestamp + 1 ≤ upper
      simp only [queryBounds] at h2
      omega
  · simp only [queryBounds]
    omega
  · simp only [queryBounds]
    omega
  · intro hd
    simp only [queryBounds]
    omega

/-- Witness for the amended C9 at a concrete loop state. -/
theorem loop_bounds_invariant_witness :
    (step [⟨100, 1⟩] 5 10 101 (initState 100)).current ≤ 101 ∧
    (queryBounds 10 101 (initState 100)).1 ≤ (queryBounds 10 101 (initState 100)).2 ∧
    (queryBounds 10 101 (initState 100)).2 ≤ 101 ∧
    (1 ≤ 10 → (queryBounds 10 101 (initState 100)).1 < (queryBounds 10 101 (initState 100)).2) :=
  loop_bounds_invariant [⟨100, 1⟩] 5 10 101 (initState 100) (by decide)

/-- C10: the sampling-interval computation divides by `stats.count` with no
zero-count guard, so it is well-defined exactly when `count >= 1`, and the
derived `chunk_timedelta` is defined exactly under that same precondition. -/
theorem sampling_division_defined_iff :
    ∀ (s : Stats) (maxLimit : Nat),
      (samplingInterval s = none ↔ s.count = 0) ∧
      ((chunkTimedeltaOpt s maxLimit).isSome ↔ 1 ≤ s.count) := by
  intro s maxLimit
  constructor
  · unfold samplingInterval
    split
    · rename_i hc
      simp [hc]
    · rename_i hc
      simp [hc]
  · unfold chunkTimedeltaOpt
    split
    · rename_i hc
      simp [hc]
    · rename_i hc
      simp
      omega

end MysqlImport
